import Mathlib

/-!
Verification of the WiFi photo transfer downloader (`downloader.py`).

The script is shallowly embedded: HTML parsing callbacks become folds over an
event stream, the driver's network interaction is parameterised by an
environment (an oracle giving each request's outcome), `sys.exit` and
uncaught exceptions become an `Except` error result, and the filesystem is a
small record tracking the workspace directory, the rolling zip and the final
archive.  The module-level `try`/`finally` is modelled by `applyFinally`.
-/

/-- An HTML parse event, as delivered by the streaming parser to the handler
methods `handle_starttag`, `handle_data`, `handle_endtag`.  Attribute values
are optional, as in the Python parser (`<a href>` yields value `None`). -/
inductive Event where
  | startTag (tag : String) (attrs : List (String × Option String))
  | data (s : String)
  | endTag (tag : String)
deriving DecidableEq, Repr

/-- Strip leading and trailing whitespace from a character list
(Python's `str.strip()` on ASCII input). -/
def stripChars (l : List Char) : List Char :=
  ((l.dropWhile Char.isWhitespace).reverse.dropWhile Char.isWhitespace).reverse

/-- Python `s.strip()`. -/
def pyStrip (s : String) : String := ⟨stripChars s.data⟩

/-- Numeric value of a list of ASCII digits (Python `int` on a digit string). -/
def digitsVal (l : List Char) : Nat :=
  l.foldl (fun a c => a * 10 + (c.toNat - 48)) 0

/-- State of the `FindAlbumLink` handler: fields `album_path`, `inside_link`,
`href` of the Python class. -/
structure FalState where
  album_path : Option String := none
  inside_link : Bool := false
  href : Option String := none
deriving DecidableEq, Repr

/-- `FindAlbumLink.handle_starttag`: on an `a` tag (unless the album was
already found) mark that we are inside a link and record the first `href`
attribute value, keeping the previous value when the tag carries none. -/
def falStart (st : FalState) (tag : String) (attrs : List (String × Option String)) :
    FalState :=
  if st.album_path.isSome then st
  else if tag == "a" then
    { st with inside_link := true,
              href := match attrs.find? (fun p => p.1 == "href") with
                      | some p => p.2
                      | none => st.href }
  else st

/-- `FindAlbumLink.handle_data`: inside a link, a stripped text node equal to
the album name records the current `href` as the album path. -/
def falData (st : FalState) (name s : String) : FalState :=
  if st.inside_link then
    if pyStrip s == name then { st with album_path := st.href } else st
  else st

/-- `FindAlbumLink.handle_endtag`: a closing `a` tag leaves the link and
clears the remembered `href`. -/
def falEnd (st : FalState) (tag : String) : FalState :=
  if tag == "a" then { st with inside_link := false, href := none } else st

/-- Dispatch one parse event to the `FindAlbumLink` handlers. -/
def falStep (name : String) (st : FalState) (ev : Event) : FalState :=
  match ev with
  | .startTag tag attrs => falStart st tag attrs
  | .data s => falData st name s
  | .endTag tag => falEnd st tag

/-- Feed a whole event stream to a fresh `FindAlbumLink` handler. -/
def falRun (name : String) (evs : List Event) : FalState :=
  evs.foldl (falStep name) {}

/-- `FindAlbumLink(album).feed(page); .album_path` — the located album path,
`none` meaning `AlbumNotFound`. -/
def findAlbumLink (name : String) (evs : List Event) : Option String :=
  (falRun name evs).album_path

/-- `re.match(r"# (\d+)", s)` on an already-stripped character list: a hash,
a single space, then a maximal nonempty run of digits. -/
def matchHashNum : List Char → Option Nat
  | '#' :: ' ' :: rest =>
    let ds := rest.takeWhile Char.isDigit
    if ds.isEmpty then none else some (digitsVal ds)
  | _ => none

/-- `re.match(r"# (\d+)", s.strip())` returning the captured integer. -/
def parseHashNum (s : String) : Option Nat := matchHashNum (pyStrip s).data

/-- `FindHighestFileNumber.handle_data`: remember the first text node whose
stripped content matches `# <digits>`. -/
def fhfnStep (st : Option Nat) (ev : Event) : Option Nat :=
  match st with
  | some n => some n
  | none =>
    match ev with
    | .data s => parseHashNum s
    | _ => none

/-- `FindHighestFileNumber().feed(page); .index` — the extracted highest file
index, `none` meaning `NoFilesInAlbum`. -/
def findHighestFileNumber (evs : List Event) : Option Nat :=
  evs.foldl fhfnStep none

/-- `re.match(r"/(\d+)/", album_path).group(1)`: a leading slash, a nonempty
run of digits, a slash; `none` models the `AttributeError` on a failed match. -/
def parseAlbumId (s : String) : Option Nat :=
  match s.data with
  | '/' :: rest =>
    let ds := rest.takeWhile Char.isDigit
    if ds.isEmpty then none
    else
      match rest.drop ds.length with
      | '/' :: _ => some (digitsVal ds)
      | _ => none
  | _ => none

/-- Fatal outcomes of a run: `sys.exit` calls and uncaught exceptions. -/
inductive HErr where
  | connection
  | status (code : Nat)
  | badUrl
  | other
  | badBody
deriving DecidableEq, Repr

/-- The distinct ways a run terminates unsuccessfully. -/
inductive ExitErr where
  | http (e : HErr)
  | albumNotFound
  | badAlbumPath
  | noFilesInAlbum
  | startExceedsAvailable
  | workspaceCollision
  | compressionTimeout
  | unpackFailed
  | zipMissing
deriving DecidableEq, Repr

/-- The range planning step (`downloader.py` lines 93–101): reject a start
index beyond the highest available, otherwise clamp the optional end index to
the highest one. -/
def rangePlanner (reqStart : Nat) (reqEnd : Option Nat) (highest : Nat) :
    Except ExitErr (Nat × Nat) :=
  if reqStart > highest then .error .startExceedsAvailable
  else
    let endIndex := match reqEnd with
      | some e => if e < highest then e else highest
      | none => highest
    .ok (reqStart, endIndex)

/-- The chunking loop's block boundaries (`downloader.py` lines 110–117, 159):
half-open zero-based blocks of at most 200 indices. -/
def chunkList (bs be : Nat) : List (Nat × Nat) :=
  if h : bs < be then
    let nd := if bs + 200 > be then be else bs + 200
    (bs, nd) :: chunkList nd be
  else []
termination_by be - bs
decreasing_by
  simp only [gt_iff_lt]
  split <;> omega

/-- `selection = ','.join([str(i) for i in range(blockstart, blockend)])`. -/
def selectionString (bs be : Nat) : String :=
  String.intercalate "," ((List.range' bs (be - bs)).map toString)

/-- `post_data = f"lib={album_id}&sel={selection}"`. -/
def postData (aid bs be : Nat) : String :=
  "lib=" ++ toString aid ++ "&sel=" ++ selectionString bs be

/-- Observable events of the readiness-polling loop: the fixed pause and a
progress-check request. -/
inductive PEv where
  | sleep (secs : Nat)
  | poll
deriving DecidableEq, Repr

/-- Detect a 2-second pause in a poll trace. -/
def isSleep2 : PEv → Bool
  | .sleep n => n == 2
  | _ => false

/-- Detect a progress-check attempt in a poll trace. -/
def isPoll : PEv → Bool
  | .poll => true
  | _ => false

/-- The body of `for _ in range(5): time.sleep(2); ...` with the `else`
clause: `a` is the current attempt number, the fuel counts remaining
attempts; exhausting the fuel is the `CompressionTimeout` exit. -/
def pollAux (resp : Nat → Except HErr Bool) : Nat → Nat → Except ExitErr Unit × List PEv
  | _, 0 => (.error .compressionTimeout, [])
  | a, fuel + 1 =>
    match resp a with
    | .error e => (.error (.http e), [.sleep 2, .poll])
    | .ok true => (.ok (), [.sleep 2, .poll])
    | .ok false =>
      let (r, tr) := pollAux resp (a + 1) fuel
      (r, .sleep 2 :: .poll :: tr)

/-- The whole polling phase (`downloader.py` lines 134–143): five attempts,
each preceded by a 2-second sleep. -/
def pollLoop (resp : Nat → Except HErr Bool) : Except ExitErr Unit × List PEv :=
  pollAux resp 0 5

/-- Local filesystem state relevant to a run: the workspace directory, the
rolling `images.zip` inside it, the final compressed archive next to it, and
the chunk ordinals whose contents were extracted into the directory. -/
structure Fs where
  dirExists : Bool
  zipExists : Bool
  archiveExists : Bool
  extracted : List Nat
deriving DecidableEq, Repr

/-- The server/system oracle: the outcome of each request the run makes,
keyed by the chunk ordinal (and poll attempt ordinal for progress checks).
`unpackOk` tells whether extracting a downloaded archive succeeds. -/
structure Env where
  listingResp : Except HErr (List Event)
  albumResp : Except HErr (List Event)
  startComp : Nat → String → Except HErr (Nat × Bool)
  progress : Nat → Nat → Except HErr Bool
  zipDownload : Nat → Nat → Except HErr Nat
  unpackOk : Nat → Nat → Bool

/-- The download-and-extract tail of a chunk iteration (`downloader.py`
lines 145–157): fetch the archive bytes, write them to the rolling zip in
the workspace, unpack them into the workspace. -/
def downloadExtract (env : Env) (i code : Nat) (fs : Fs) (tr : List PEv) :
    Except ExitErr Unit × Fs × List PEv :=
  match env.zipDownload i code with
  | .error e => (.error (.http e), fs, tr)
  | .ok z =>
    let fs1 : Fs := { fs with zipExists := true }
    if env.unpackOk i z then
      (.ok (), { fs1 with extracted := fs1.extracted ++ [i] }, tr)
    else (.error .unpackFailed, fs1, tr)

/-- The optional polling phase of a chunk iteration (`downloader.py` lines
132–143): entered only when the compression response was not ready. -/
def pollPhase (env : Env) (i : Nat) (ready : Bool) : Except ExitErr Unit × List PEv :=
  if ready then (.ok (), []) else pollLoop (env.progress i)

/-- One iteration of the chunk loop (`downloader.py` lines 119–157):
compression request, optional polling phase, download of the zip into the
workspace, extraction into the workspace.  Also returns the poll trace. -/
def processOneChunk (env : Env) (aid i : Nat) (c : Nat × Nat) (fs : Fs) :
    Except ExitErr Unit × Fs × List PEv :=
  match env.startComp i (postData aid c.1 c.2) with
  | .error e => (.error (.http e), fs, [])
  | .ok (code, ready) =>
    match pollPhase env i ready with
    | (.error e, tr) => (.error e, fs, tr)
    | (.ok _, tr) => downloadExtract env i code fs tr

/-- The chunk loop over the precomputed block list; the final `Nat` counts
the loop iterations that were entered. -/
def processChunks (env : Env) (aid : Nat) : Nat → List (Nat × Nat) → Fs →
    Except ExitErr Unit × Fs × Nat
  | _, [], fs => (.ok (), fs, 0)
  | i, c :: rest, fs =>
    match processOneChunk env aid i c fs with
    | (.ok _, fs1, _) =>
      let (r, fs2, n) := processChunks env aid (i + 1) rest fs1
      (r, fs2, n + 1)
    | (.error e, fs1, _) => (.error e, fs1, 1)

/-- `shutil.rmtree(download_dir)`: the directory and everything in it go away. -/
def rmtreeFs (fs : Fs) : Fs :=
  { fs with dirExists := false, zipExists := false, extracted := [] }

/-- The success-path epilogue (`downloader.py` lines 161–168):
`os.remove(zip_path)` — raising `FileNotFoundError` when no chunk ever wrote
the zip — then `make_archive`, then `rmtree` of the workspace. -/
def finalizeRun (fs : Fs) : Except ExitErr Unit × Fs :=
  if fs.zipExists then
    (.ok (), rmtreeFs { fs with zipExists := false, archiveExists := true })
  else (.error .zipMissing, fs)

/-- Chunk processing followed by the epilogue, starting from the block list
of `[bs, be)`. -/
def driveChunks (env : Env) (aid bs be : Nat) (fs : Fs) :
    Except ExitErr Unit × Fs × Nat :=
  match processChunks env aid 0 (chunkList bs be) fs with
  | (.ok _, fs1, n) =>
    let (r, fs2) := finalizeRun fs1
    (r, fs2, n)
  | (.error e, fs1, n) => (.error e, fs1, n)

/-- Command-line inputs consumed by `main` (already parsed; the validation of
lines 191–197 is the caller's obligation, mirrored as hypotheses). -/
structure Args where
  album : String
  start : Nat
  end? : Option Nat
deriving DecidableEq, Repr

/-- The body of `main()` (`downloader.py` lines 76–168): album resolution,
highest-index resolution, range planning, workspace creation (`os.mkdir`
raising `FileExistsError` on collision), the chunk loop and the epilogue.
The `Nat` result counts chunk-loop iterations. -/
def runMain (env : Env) (args : Args) (fs : Fs) : Except ExitErr Unit × Fs × Nat :=
  match env.listingResp with
  | .error e => (.error (.http e), fs, 0)
  | .ok listing =>
    match findAlbumLink args.album listing with
    | none => (.error .albumNotFound, fs, 0)
    | some path =>
      match parseAlbumId path with
      | none => (.error .badAlbumPath, fs, 0)
      | some aid =>
        match env.albumResp with
        | .error e => (.error (.http e), fs, 0)
        | .ok detail =>
          match findHighestFileNumber detail with
          | none => (.error .noFilesInAlbum, fs, 0)
          | some highest =>
            match rangePlanner args.start args.end? highest with
            | .error e => (.error e, fs, 0)
            | .ok (s, e) =>
              if fs.dirExists then (.error .workspaceCollision, fs, 0)
              else driveChunks env aid (s - 1) e { fs with dirExists := true }

/-- The module-level `finally` (`downloader.py` lines 202–204): remove the
workspace directory if it still exists. -/
def applyFinally (fs : Fs) : Fs :=
  if fs.dirExists then rmtreeFs fs else fs

/-- A whole run: `try: main() finally: ...` starting from filesystem `fs`. -/
def moduleRun (env : Env) (args : Args) (fs : Fs) :
    Except ExitErr Unit × Fs × Nat :=
  match runMain env args fs with
  | (r, fs1, n) => (r, applyFinally fs1, n)

/-- A piece of document content carrying no anchor tags: a non-anchor opening
tag, a non-anchor closing tag, or a text node.  Used to phrase well-formed
documents for the specification-level album locator. -/
inductive Anode where
  | tag (t : String) (attrs : List (String × Option String))
  | closeTag (t : String)
  | text (s : String)
deriving DecidableEq, Repr

/-- The parse event a content piece stands for. -/
def Anode.render : Anode → Event
  | .tag t attrs => .startTag t attrs
  | .closeTag t => .endTag t
  | .text s => .data s

/-- A content piece mentions no `a` tag. -/
def anodeNoA : Anode → Bool
  | .tag t _ => !(t == "a")
  | .closeTag t => !(t == "a")
  | .text _ => true

/-- A well-formed document item: a complete anchor element (attributes plus
anchor-free contents), or a stray anchor-free piece between anchors. -/
inductive Item where
  | anchor (attrs : List (String × Option String)) (inner : List Anode)
  | outside (n : Anode)
deriving DecidableEq, Repr

/-- The event run an item stands for. -/
def Item.render : Item → List Event
  | .anchor attrs inner => .startTag "a" attrs :: (inner.map Anode.render ++ [.endTag "a"])
  | .outside n => [n.render]

/-- The event stream of a well-formed document. -/
def renderDoc (d : List Item) : List Event := (d.map Item.render).flatten

/-- Well-formedness: no `a` tag hides inside an item. -/
def itemNoA : Item → Bool
  | .anchor _ inner => inner.all anodeNoA
  | .outside n => anodeNoA n

/-- Well-formedness of a whole document. -/
def docNoA (d : List Item) : Bool := d.all itemNoA

/-- Modelled from the spec's contract wording for comparison with the code:
the `href` value carried by an anchor's attribute list (first `href`
attribute, which must have a value). -/
def anchorHref (attrs : List (String × Option String)) : Option String :=
  match attrs.find? (fun p => p.1 == "href") with
  | some p => p.2
  | none => none

/-- Whether some text node inside an anchor strips to the album name. -/
def anchorMatches (name : String) (inner : List Anode) : Bool :=
  inner.any fun n =>
    match n with
    | .text s => pyStrip s == name
    | _ => false

/-- Modelled from the spec's contract wording (§4.1) for comparison with the
code: the `href` of the first anchor, in document order, whose contained text
strips to the album name and which carries an `href`; anchors matching the
name but carrying no `href` are passed over. -/
def specAlbumHref (name : String) : List Item → Option String
  | [] => none
  | .anchor attrs inner :: rest =>
    if anchorMatches name inner then
      match anchorHref attrs with
      | some h => some h
      | none => specAlbumHref name rest
    else specAlbumHref name rest
  | .outside _ :: rest => specAlbumHref name rest

/-- Modelled from the spec's contract wording (§4.2) for comparison with the
code: the integer of the first text node, in document order, whose stripped
content matches `# <digits>`. -/
def firstHash : List Event → Option Nat
  | [] => none
  | .data s :: rest =>
    match parseHashNum s with
    | some n => some n
    | none => firstHash rest
  | _ :: rest => firstHash rest

/-- A text string contains a `# <digits>` token somewhere (the reading of
"contains such a token" used by the claim about the index locator). -/
def containsHashToken (s : String) : Bool :=
  s.data.tails.any fun t => (matchHashNum t).isSome

/-- Boolean chain predicate: the blocks run from `a` to `b`, each starting
where the previous one ended and strictly growing — i.e. they are in
increasing, non-overlapping, contiguous order covering `[a, b)`. -/
def chunkChainB : Nat → List (Nat × Nat) → Nat → Bool
  | a, [], b => a == b
  | a, c :: t, b => c.1 == a && Nat.blt a c.2 && chunkChainB c.2 t b

theorem chunkChainB_le {a b : Nat} {l : List (Nat × Nat)} (h : chunkChainB a l b = true) :
    a ≤ b := by
  induction l generalizing a with
  | nil => simp [chunkChainB] at h; omega
  | cons c t ih =>
    simp only [chunkChainB, Bool.and_eq_true, beq_iff_eq, Nat.blt_eq] at h
    have := ih h.2
    omega

theorem chunkList_chain (bs be : Nat) (h : bs ≤ be) :
    chunkChainB bs (chunkList bs be) be = true := by
  induction bs, be using chunkList.induct with
  | case1 bs be hlt nd ih =>
    have hnd1 : bs < nd := by simp only [nd]; split <;> omega
    have hnd2 : nd ≤ be := by simp only [nd]; split <;> omega
    rw [chunkList]
    simp only [hlt, dite_true, chunkChainB, Bool.and_eq_true, beq_iff_eq, Nat.blt_eq]
    exact ⟨⟨by trivial, hnd1⟩, ih hnd2⟩
  | case2 bs be hlt =>
    rw [chunkList]
    simp only [hlt, dite_false, chunkChainB, beq_iff_eq]
    omega

theorem chunkList_sizes (bs be : Nat) :
    ∀ c ∈ chunkList bs be, c.2 - c.1 ≤ 200 ∧ c.1 < c.2 := by
  induction bs, be using chunkList.induct with
  | case1 bs be hlt nd ih =>
    rw [chunkList]
    simp only [hlt, dite_true, List.mem_cons]
    rintro c (rfl | hc)
    · constructor <;> (simp only [nd]; split <;> omega)
    · exact ih c hc
  | case2 bs be hlt =>
    rw [chunkList]
    simp only [hlt, dite_false]
    intro c hc
    exact absurd hc (List.not_mem_nil c)

theorem chunkChainB_mem {a b : Nat} {l : List (Nat × Nat)}
    (h : chunkChainB a l b = true) (k : Nat) :
    (∃ c ∈ l, c.1 ≤ k ∧ k < c.2) ↔ (a ≤ k ∧ k < b) := by
  induction l generalizing a with
  | nil =>
    simp only [chunkChainB, beq_iff_eq] at h
    subst h
    constructor
    · rintro ⟨c, hc, -⟩
      exact absurd hc (List.not_mem_nil c)
    · intro hk
      omega
  | cons c t ih =>
    simp only [chunkChainB, Bool.and_eq_true, beq_iff_eq, Nat.blt_eq] at h
    obtain ⟨⟨h1, h2⟩, h3⟩ := h
    have hb := chunkChainB_le h3
    have hmem := ih h3
    simp only [List.mem_cons]
    constructor
    · rintro ⟨d, (rfl | hd), hk⟩
      · omega
      · have := hmem.1 ⟨d, hd, hk⟩
        omega
    · intro hk
      by_cases hky : k < c.2
      · exact ⟨c, Or.inl rfl, by omega, hky⟩
      · obtain ⟨d, hd, hkd⟩ := hmem.2 (by omega)
        exact ⟨d, Or.inr hd, hkd⟩

theorem chunkList_550 : chunkList 0 550 = [(0, 200), (200, 400), (400, 550)] := by
  simp [chunkList]

theorem chunkList_empty : chunkList 0 0 = [] := by
  simp [chunkList]

/-- C4: for requested starts ≥ 1 with any requested end ≥ the start, the
range planner signals `StartExceedsAvailable` exactly when the requested
start exceeds the highest index; otherwise it yields
`(requestedStart, min (requestedEnd ?? highestIndex) highestIndex)` — so the
end is the highest index when no end was requested, and a pair already
within range comes back unchanged. -/
theorem range_planner_spec (s h : Nat) (e : Option Nat)
    (_hs : 1 ≤ s) (he : ∀ x, e = some x → s ≤ x) :
    (rangePlanner s e h = .error .startExceedsAvailable ↔ h < s) ∧
    (s ≤ h → rangePlanner s e h = .ok (s, min (e.getD h) h)) ∧
    (e = none → s ≤ h → rangePlanner s e h = .ok (s, h)) ∧
    (∀ x, e = some x → x ≤ h → rangePlanner s e h = .ok (s, x)) := by
  refine ⟨?_, ?_, ?_, ?_⟩
  · unfold rangePlanner
    split
    · simp only [true_iff]
      omega
    · simp only [reduceCtorEq, false_iff]
      omega
  · intro hsh
    unfold rangePlanner
    rw [if_neg (by omega)]
    cases e with
    | none => simp
    | some x =>
      simp only [Option.getD_some]
      congr 1
      congr 1
      rw [Nat.min_def]
      split <;> split <;> omega
  · rintro rfl hsh
    unfold rangePlanner
    rw [if_neg (by omega)]
  · rintro x rfl hxh
    have hsx := he x rfl
    unfold rangePlanner
    rw [if_neg (by omega)]
    simp only [Except.ok.injEq, Prod.mk.injEq, true_and]
    split <;> omega

/-- Witness for `range_planner_spec` at start 2, requested end 5, highest 10. -/
theorem range_planner_spec_witness :
    (rangePlanner 2 (some 5) 10 = .error .startExceedsAvailable ↔ 10 < 2) ∧
    (2 ≤ 10 → rangePlanner 2 (some 5) 10 = .ok (2, min ((some 5).getD 10) 10)) ∧
    ((some 5 : Option Nat) = none → 2 ≤ 10 → rangePlanner 2 (some 5) 10 = .ok (2, 10)) ∧
    (∀ x, (some 5 : Option Nat) = some x → x ≤ 10 → rangePlanner 2 (some 5) 10 = .ok (2, x)) :=
  range_planner_spec 2 10 (some 5) (by decide) (by intro x hx; cases hx; decide)

/-- C5: for every effective range with 1 ≤ start ≤ end, the chunk sequence is
a finite list of half-open zero-based blocks, each of size at most 200, in
increasing, non-overlapping, contiguous order (`chunkChainB`), whose union is
exactly `[start − 1, end)`; over `[0, 550)` it is exactly
`[0,200), [200,400), [400,550)`, and over `[0, 0)` it is empty. -/
theorem chunk_sequencer_spec (s e : Nat) (hs : 1 ≤ s) (hse : s ≤ e) :
    chunkChainB (s - 1) (chunkList (s - 1) e) e = true ∧
    (∀ c ∈ chunkList (s - 1) e, c.2 - c.1 ≤ 200) ∧
    (∀ k, (∃ c ∈ chunkList (s - 1) e, c.1 ≤ k ∧ k < c.2) ↔ (s - 1 ≤ k ∧ k < e)) ∧
    chunkList 0 550 = [(0, 200), (200, 400), (400, 550)] ∧
    chunkList 0 0 = [] := by
  have hch := chunkList_chain (s - 1) e (by omega)
  refine ⟨hch, ?_, ?_, chunkList_550, chunkList_empty⟩
  · intro c hc
    exact (chunkList_sizes (s - 1) e c hc).1
  · intro k
    exact chunkChainB_mem hch k

/-- Witness for `chunk_sequencer_spec` on the range `[1, 550]`. -/
theorem chunk_sequencer_spec_witness :
    chunkChainB 0 (chunkList 0 550) 550 = true ∧
    (∀ c ∈ chunkList 0 550, c.2 - c.1 ≤ 200) ∧
    (∀ k, (∃ c ∈ chunkList 0 550, c.1 ≤ k ∧ k < c.2) ↔ (0 ≤ k ∧ k < 550)) ∧
    chunkList 0 550 = [(0, 200), (200, 400), (400, 550)] ∧
    chunkList 0 0 = [] :=
  chunk_sequencer_spec 1 550 (by decide) (by decide)

/-- C7 counterexample: a page whose sole text node is `"see # 734"` contains
the token `# 734`, yet the index locator yields no index (it would signal
`NoFilesInAlbum`), because `re.match` only matches at the start of the
stripped text node — refuting the claimed "contains a token" criterion. -/
theorem index_locator_counterexample :
    findHighestFileNumber [.data "see # 734"] = none ∧
    containsHashToken "see # 734" = true := by
  constructor
  · rfl
  · decide

theorem foldl_fhfnStep_some (evs : List Event) (n : Nat) :
    evs.foldl fhfnStep (some n) = some n := by
  induction evs with
  | nil => rfl
  | cons ev rest ih => simpa [fhfnStep] using ih

/-- C7 amended: the index locator returns the integer of the first text node,
in document order, whose *stripped content starts with* a token matching
`# <digits>` (it equals the specification-level scan `firstHash`), and it
signals `NoFilesInAlbum` exactly when no text node's stripped content starts
with such a token; a text node `"# 734 photos"` yields 734. -/
theorem index_locator_amended :
    (∀ evs, findHighestFileNumber evs = firstHash evs) ∧
    (∀ evs, findHighestFileNumber evs = none ↔
      ∀ s, Event.data s ∈ evs → parseHashNum s = none) ∧
    findHighestFileNumber [.data "# 734 photos"] = some 734 := by
  have key : ∀ evs, findHighestFileNumber evs = firstHash evs := by
    intro evs
    induction evs with
    | nil => rfl
    | cons ev rest ih =>
      cases ev with
      | data s =>
        unfold findHighestFileNumber at ih ⊢
        simp only [List.foldl_cons, fhfnStep, firstHash]
        cases hp : parseHashNum s with
        | none => exact ih
        | some n => exact foldl_fhfnStep_some rest n
      | startTag t attrs =>
        unfold findHighestFileNumber at ih ⊢
        simpa only [List.foldl_cons, fhfnStep, firstHash] using ih
      | endTag t =>
        unfold findHighestFileNumber at ih ⊢
        simpa only [List.foldl_cons, fhfnStep, firstHash] using ih
  refine ⟨key, ?_, by rfl⟩
  intro evs
  rw [key]
  induction evs with
  | nil => simp [firstHash]
  | cons ev rest ih =>
    cases ev with
    | data s =>
      simp only [firstHash, List.mem_cons]
      cases hp : parseHashNum s with
      | none =>
        rw [ih]
        constructor
        · rintro hall t (heq | ht)
          · cases heq; exact hp
          · exact hall t ht
        · intro hall t ht
          exact hall t (Or.inr ht)
      | some n =>
        simp only [reduceCtorEq, false_iff, not_forall]
        push_neg
        exact ⟨s, Or.inl rfl, by simp [hp]⟩
    | startTag t attrs =>
      simp only [firstHash, List.mem_cons]
      rw [ih]
      constructor
      · rintro hall u (heq | hu)
        · cases heq
        · exact hall u hu
      · intro hall u hu
        exact hall u (Or.inr hu)
    | endTag t =>
      simp only [firstHash, List.mem_cons]
      rw [ih]
      constructor
      · rintro hall u (heq | hu)
        · cases heq
        · exact hall u hu
      · intro hall u hu
        exact hall u (Or.inr hu)

theorem pollAux_counts (resp : Nat → Except HErr Bool) (fuel a : Nat) :
    (pollAux resp a fuel).2.countP isPoll ≤ fuel ∧
    (pollAux resp a fuel).2.countP isSleep2 = (pollAux resp a fuel).2.countP isPoll := by
  induction fuel generalizing a with
  | zero => simp [pollAux]
  | succ n ih =>
    cases hr : resp a with
    | error e => simp [pollAux, hr, List.countP_cons, isPoll, isSleep2]
    | ok b =>
      cases b with
      | true => simp [pollAux, hr, List.countP_cons, isPoll, isSleep2]
      | false =>
        have h := ih (a + 1)
        simp [pollAux, hr, List.countP_cons, isPoll, isSleep2] at h ⊢
        omega

/-- Fixed readiness responses whose 3rd poll attempt reports ready. -/
def resp3 : Nat → Except HErr Bool := fun j => if j < 2 then .ok false else .ok true

/-- Server oracle for a chunk that is not ready at first and whose 3rd poll
attempt reports ready. -/
def cEnv2 : Env :=
  { listingResp := .ok []
    albumResp := .ok []
    startComp := fun _ _ => .ok (42, false)
    progress := fun _ j => resp3 j
    zipDownload := fun _ _ => .ok 0
    unpackOk := fun _ _ => true }

/-- Server oracle for a chunk whose compression response is ready at once. -/
def cEnvTrue : Env :=
  { listingResp := .ok []
    albumResp := .ok []
    startComp := fun _ _ => .ok (42, true)
    progress := fun _ _ => .ok false
    zipDownload := fun _ _ => .ok 0
    unpackOk := fun _ _ => true }

/-- Filesystem state right after the workspace directory was created. -/
def fs0 : Fs :=
  { dirExists := true, zipExists := false, archiveExists := false, extracted := [] }

/-- C2 counterexample: for a chunk whose first readiness response is
`ready: false` and whose 3rd poll attempt reports `readyForDownload: true`,
the driver performs exactly 3 poll attempts and then downloads (the chunk
succeeds) — but three 2-second pauses occur, not two: the code sleeps before
every attempt, including the first. -/
theorem poll_pause_counterexample :
    (processOneChunk cEnv2 7 0 (0, 5) fs0).1 = .ok () ∧
    (processOneChunk cEnv2 7 0 (0, 5) fs0).2.2.countP isPoll = 3 ∧
    (processOneChunk cEnv2 7 0 (0, 5) fs0).2.2.countP isSleep2 = 3 ∧
    ¬((processOneChunk cEnv2 7 0 (0, 5) fs0).2.2.countP isSleep2 = 2) := by
  refine ⟨rfl, rfl, rfl, by decide⟩

/-- C2 amended: the polling phase (entered only when the compression
response's ready flag is false — an immediately-ready chunk produces no poll
trace at all) makes at most 5 progress-check attempts, with one 2-second
pause *before every attempt including the first* (so n attempts come with n
pauses); for a run whose 3rd poll attempt reports ready, exactly 3 poll
attempts and exactly three 2-second pauses occur before downloading. -/
theorem poll_phase_amended :
    (∀ resp, (pollLoop resp).2.countP isPoll ≤ 5) ∧
    (∀ resp, (pollLoop resp).2.countP isSleep2 = (pollLoop resp).2.countP isPoll) ∧
    (∀ resp, resp 0 = .ok false → resp 1 = .ok false → resp 2 = .ok true →
      pollLoop resp = (.ok (), [.sleep 2, .poll, .sleep 2, .poll, .sleep 2, .poll])) ∧
    (∀ env aid i c fs code,
      env.startComp i (postData aid c.1 c.2) = .ok (code, true) →
      (processOneChunk env aid i c fs).2.2 = []) := by
  refine ⟨fun resp => (pollAux_counts resp 5 0).1,
          fun resp => (pollAux_counts resp 5 0).2, ?_, ?_⟩
  · intro resp h0 h1 h2
    simp [pollLoop, pollAux, h0, h1, h2]
  · intro env aid i c fs code hsc
    simp only [processOneChunk, hsc, pollPhase, if_true]
    cases hz : env.zipDownload i code
    · simp [downloadExtract, hz]
    · simp only [downloadExtract, hz]
      split <;> rfl

/-- Witness for `poll_phase_amended`: the concrete third-poll-ready responses
and an immediately-ready chunk oracle. -/
theorem poll_phase_amended_witness :
    pollLoop resp3 = (.ok (), [.sleep 2, .poll, .sleep 2, .poll, .sleep 2, .poll]) ∧
    (processOneChunk cEnvTrue 7 0 (0, 5) fs0).2.2 = [] :=
  ⟨poll_phase_amended.2.2.1 resp3 rfl rfl rfl,
   poll_phase_amended.2.2.2 cEnvTrue 7 0 (0, 5) fs0 42 rfl⟩

/-- Invariant of the `FindAlbumLink` state once the album path was recorded:
the path stays recorded, and while inside a link the remembered `href` is
that same path. -/
def falFound (h : String) (st : FalState) : Prop :=
  st.album_path = some h ∧ (st.inside_link = true → st.href = some h)

theorem falStep_found {h : String} (name : String) (st : FalState) (ev : Event)
    (hst : falFound h st) : falFound h (falStep name st ev) := by
  obtain ⟨h1, h2⟩ := hst
  cases ev with
  | startTag tag attrs =>
    simp only [falStep, falStart, h1, Option.isSome_some, if_true]
    exact ⟨h1, h2⟩
  | data s =>
    simp only [falStep, falData]
    split
    · split
      · next hin _ =>
        exact ⟨by simpa using h2 hin, fun _ => h2 hin⟩
      · exact ⟨h1, h2⟩
    · exact ⟨h1, h2⟩
  | endTag tag =>
    simp only [falStep, falEnd]
    split
    · exact ⟨h1, by simp⟩
    · exact ⟨h1, h2⟩

theorem foldl_falStep_found {h : String} (name : String) (evs : List Event)
    (st : FalState) (hst : falFound h st) :
    falFound h (evs.foldl (falStep name) st) := by
  induction evs generalizing st with
  | nil => exact hst
  | cons ev rest ih => exact ih _ (falStep_found name st ev hst)

theorem falStep_outside (name : String) (n : Anode) (hn : anodeNoA n = true) :
    falStep name {} n.render = ({} : FalState) := by
  cases n with
  | tag t attrs =>
    simp only [anodeNoA, Bool.not_eq_eq_eq_not, Bool.not_true] at hn
    simp [Anode.render, falStep, falStart, hn]
  | closeTag t =>
    simp only [anodeNoA, Bool.not_eq_eq_eq_not, Bool.not_true] at hn
    simp [Anode.render, falStep, falEnd, hn]
  | text s =>
    simp [Anode.render, falStep, falData]

theorem foldl_inner_fix (name : String) (hr : Option String) (inner : List Anode)
    (hn : inner.all anodeNoA = true) :
    (inner.map Anode.render).foldl (falStep name) ⟨hr, true, hr⟩ =
      (⟨hr, true, hr⟩ : FalState) := by
  induction inner with
  | nil => rfl
  | cons n rest ih =>
    simp only [List.all_cons, Bool.and_eq_true] at hn
    have hstep : falStep name ⟨hr, true, hr⟩ n.render = (⟨hr, true, hr⟩ : FalState) := by
      cases n with
      | tag t attrs =>
        simp only [anodeNoA, Bool.not_eq_eq_eq_not, Bool.not_true] at hn
        cases hr with
        | none => simp [Anode.render, falStep, falStart, hn.1]
        | some v => simp [Anode.render, falStep, falStart]
      | closeTag t =>
        simp only [anodeNoA, Bool.not_eq_eq_eq_not, Bool.not_true] at hn
        simp [Anode.render, falStep, falEnd, hn.1]
      | text s =>
        simp only [Anode.render, falStep, falData, if_true]
        split <;> rfl
    simp only [List.map_cons, List.foldl_cons, hstep]
    exact ih hn.2

theorem foldl_inner (name : String) (hr : Option String) (inner : List Anode)
    (hn : inner.all anodeNoA = true) :
    (inner.map Anode.render).foldl (falStep name) ⟨none, true, hr⟩ =
      (⟨if anchorMatches name inner then hr else none, true, hr⟩ : FalState) := by
  induction inner with
  | nil => simp [anchorMatches]
  | cons n rest ih =>
    simp only [List.all_cons, Bool.and_eq_true] at hn
    cases n with
    | tag t attrs =>
      simp only [anodeNoA, Bool.not_eq_eq_eq_not, Bool.not_true] at hn
      have hstep : falStep name ⟨none, true, hr⟩ (Anode.render (.tag t attrs)) =
          (⟨none, true, hr⟩ : FalState) := by
        simp [Anode.render, falStep, falStart, hn.1]
      simp only [List.map_cons, List.foldl_cons, hstep, ih hn.2,
        anchorMatches, List.any_cons, Bool.false_or]
    | closeTag t =>
      simp only [anodeNoA, Bool.not_eq_eq_eq_not, Bool.not_true] at hn
      have hstep : falStep name ⟨none, true, hr⟩ (Anode.render (.closeTag t)) =
          (⟨none, true, hr⟩ : FalState) := by
        simp [Anode.render, falStep, falEnd, hn.1]
      simp only [List.map_cons, List.foldl_cons, hstep, ih hn.2,
        anchorMatches, List.any_cons, Bool.false_or]
    | text s =>
      cases hm : (pyStrip s == name) with
      | false =>
        have hstep : falStep name ⟨none, true, hr⟩ (Anode.render (.text s)) =
            (⟨none, true, hr⟩ : FalState) := by
          simp [Anode.render, falStep, falData, hm]
        simp only [List.map_cons, List.foldl_cons, hstep, ih hn.2,
          anchorMatches, List.any_cons, hm, Bool.false_or]
      | true =>
        have hstep : falStep name ⟨none, true, hr⟩ (Anode.render (.text s)) =
            (⟨hr, true, hr⟩ : FalState) := by
          simp [Anode.render, falStep, falData, hm]
        simp only [List.map_cons, List.foldl_cons, hstep, foldl_inner_fix name hr rest hn.2,
          anchorMatches, List.any_cons, hm, Bool.true_or, if_true]

theorem foldl_anchor (name : String) (attrs : List (String × Option String))
    (inner : List Anode) (hn : inner.all anodeNoA = true) :
    (Item.anchor attrs inner).render.foldl (falStep name) {} =
      (⟨if anchorMatches name inner then anchorHref attrs else none,
        false, none⟩ : FalState) := by
  have h1 : falStep name {} (Event.startTag "a" attrs) =
      (⟨none, true, anchorHref attrs⟩ : FalState) := by
    simp only [falStep, falStart, anchorHref]
    rfl
  simp only [Item.render, List.foldl_cons, h1]
  rw [List.foldl_append, foldl_inner name (anchorHref attrs) inner hn]
  simp [falStep, falEnd]

theorem findAlbumLink_renderDoc (name : String) (doc : List Item)
    (hd : docNoA doc = true) :
    findAlbumLink name (renderDoc doc) = specAlbumHref name doc := by
  induction doc with
  | nil => rfl
  | cons item rest ih =>
    simp only [docNoA, List.all_cons, Bool.and_eq_true] at hd
    obtain ⟨hitem, hrest⟩ := hd
    have ihr := ih hrest
    have hsplit : renderDoc (item :: rest) = item.render ++ renderDoc rest := by
      simp [renderDoc]
    cases item with
    | outside n =>
      have hno : anodeNoA n = true := by simpa [itemNoA] using hitem
      unfold findAlbumLink falRun at ihr ⊢
      rw [hsplit]
      have : Item.render (.outside n) = [n.render] := rfl
      rw [this, List.cons_append, List.nil_append, List.foldl_cons,
        falStep_outside name n hno]
      simpa [specAlbumHref] using ihr
    | anchor attrs inner =>
      have hno : inner.all anodeNoA = true := by simpa [itemNoA] using hitem
      unfold findAlbumLink falRun at ihr ⊢
      rw [hsplit, List.foldl_append, foldl_anchor name attrs inner hno]
      by_cases hm : anchorMatches name inner = true
      · cases haH : anchorHref attrs with
        | some h =>
          rw [if_pos hm]
          have hfound : falFound h (⟨some h, false, none⟩ : FalState) :=
            ⟨rfl, by simp⟩
          have hpres := foldl_falStep_found name (renderDoc rest) _ hfound
          rw [hpres.1]
          simp [specAlbumHref, hm, haH]
        | none =>
          rw [if_pos hm]
          simp only [specAlbumHref, hm, haH, if_true]
          exact ihr
      · rw [if_neg hm]
        simp only [specAlbumHref, hm, if_false]
        exact ihr

/-- A small album-listing document: stray text, then one anchor. -/
def exDoc : List Item :=
  [.outside (.text "Albums"), .anchor [("href", some "/12/view")] [.text "Recents"]]

/-- C6: over every well-formed listing page, the album locator returns
exactly what the specification-level scan `specAlbumHref` prescribes: the
`href` of the first anchor element, in document order, whose contained text
(trimmed) equals the album name exactly and case-sensitively, stopping at
that first match, and `none` (`AlbumNotFound`) when no anchor matches; in
particular `<a href="/12/view">Recents</a>` with name `"Recents"` yields
`/12/view`, and with name `"recents"` yields `AlbumNotFound`. -/
theorem album_locator_first_match :
    (∀ name doc, docNoA doc = true →
      findAlbumLink name (renderDoc doc) = specAlbumHref name doc) ∧
    findAlbumLink "Recents"
      [.startTag "a" [("href", some "/12/view")], .data "Recents", .endTag "a"] =
      some "/12/view" ∧
    findAlbumLink "recents"
      [.startTag "a" [("href", some "/12/view")], .data "Recents", .endTag "a"] =
      none :=
  ⟨fun name doc hd => findAlbumLink_renderDoc name doc hd, rfl, rfl⟩

/-- Witness for `album_locator_first_match` on a concrete listing page. -/
theorem album_locator_first_match_witness :
    findAlbumLink "Recents" (renderDoc exDoc) = specAlbumHref "Recents" exDoc :=
  album_locator_first_match.1 "Recents" exDoc (by decide)

/-- A listing whose first matching anchor has no `href`, followed by a
matching anchor that does. -/
def hrefLessDoc : List Item :=
  [.anchor [("class", some "x")] [.text "Recents"],
   .anchor [("href", some "/9/view")] [.text "Recents"]]

/-- A listing whose only matching anchor has no `href`. -/
def hrefLessOnly : List Item := [.anchor [] [.text "Recents"]]

/-- C10: an anchor whose trimmed text equals the album name but which
carries no `href` value records no match: processing it leaves the locator
in its initial not-found state, so scanning continues past it — a later
matching anchor that does carry an `href` is returned, and when none exists
the locator yields `none` (`AlbumNotFound`). -/
theorem hrefless_anchor_skipped :
    (∀ name attrs inner rest, inner.all anodeNoA = true →
      anchorHref attrs = none → anchorMatches name inner = true →
      findAlbumLink name (renderDoc (.anchor attrs inner :: rest)) =
        findAlbumLink name (renderDoc rest)) ∧
    findAlbumLink "Recents" (renderDoc hrefLessDoc) = some "/9/view" ∧
    findAlbumLink "Recents" (renderDoc hrefLessOnly) = none := by
  refine ⟨?_, rfl, rfl⟩
  intro name attrs inner rest hn haH hm
  unfold findAlbumLink falRun
  have hsplit : renderDoc (.anchor attrs inner :: rest) =
      (Item.anchor attrs inner).render ++ renderDoc rest := by
    simp [renderDoc]
  rw [hsplit, List.foldl_append, foldl_anchor name attrs inner hn,
    if_pos hm, haH]

/-- Witness for `hrefless_anchor_skipped`: with the hrefless matching anchor
in front, the locator result equals the result on the remaining document. -/
theorem hrefless_anchor_skipped_witness :
    findAlbumLink "Recents"
      (renderDoc (.anchor [("class", some "x")] [.text "Recents"] ::
        [Item.anchor [("href", some "/9/view")] [.text "Recents"]])) =
      findAlbumLink "Recents"
        (renderDoc [Item.anchor [("href", some "/9/view")] [.text "Recents"]]) :=
  hrefless_anchor_skipped.1 "Recents" [("class", some "x")] [.text "Recents"]
    [Item.anchor [("href", some "/9/view")] [.text "Recents"]]
    (by decide) (by decide) (by decide)

theorem processOneChunk_dir_archive (env : Env) (aid i : Nat) (c : Nat × Nat) (fs : Fs) :
    ((processOneChunk env aid i c fs).2.1).dirExists = fs.dirExists ∧
    ((processOneChunk env aid i c fs).2.1).archiveExists = fs.archiveExists := by
  unfold processOneChunk downloadExtract
  split
  · exact ⟨rfl, rfl⟩
  · split
    · exact ⟨rfl, rfl⟩
    · split
      · exact ⟨rfl, rfl⟩
      · split <;> exact ⟨rfl, rfl⟩

theorem processOneChunk_outcome_indep (env : Env) (aid i : Nat) (c : Nat × Nat)
    (fs fsx : Fs) :
    (processOneChunk env aid i c fs).1 = (processOneChunk env aid i c fsx).1 := by
  cases hsc : env.startComp i (postData aid c.1 c.2) with
  | error e => simp [processOneChunk, hsc]
  | ok pr =>
    obtain ⟨code, ready⟩ := pr
    rcases hp : pollPhase env i ready with ⟨r, tr⟩
    cases r with
    | error e => simp [processOneChunk, hsc, hp]
    | ok u =>
      cases hz : env.zipDownload i code with
      | error e => simp [processOneChunk, downloadExtract, hsc, hp, hz]
      | ok z =>
        by_cases hu : env.unpackOk i z <;>
          simp [processOneChunk, downloadExtract, hsc, hp, hz, hu]

theorem processChunks_dir_archive (env : Env) (aid : Nat) (chunks : List (Nat × Nat)) :
    ∀ (i : Nat) (fs : Fs),
    ((processChunks env aid i chunks fs).2.1).dirExists = fs.dirExists ∧
    ((processChunks env aid i chunks fs).2.1).archiveExists = fs.archiveExists := by
  induction chunks with
  | nil => intro i fs; exact ⟨rfl, rfl⟩
  | cons c rest ih =>
    intro i fs
    rcases hpc : processOneChunk env aid i c fs with ⟨r, fs1, tr⟩
    have hp := processOneChunk_dir_archive env aid i c fs
    rw [hpc] at hp
    cases r with
    | ok u =>
      rcases hrec : processChunks env aid (i + 1) rest fs1 with ⟨r2, fs2, n⟩
      have h2 := ih (i + 1) fs1
      rw [hrec] at h2
      simp only [processChunks, hpc, hrec]
      exact ⟨h2.1.trans hp.1, h2.2.trans hp.2⟩
    | error e =>
      simp only [processChunks, hpc]
      exact hp

theorem applyFinally_dir (fs : Fs) : (applyFinally fs).dirExists = false := by
  unfold applyFinally
  split
  · rfl
  · next h => simpa using h

theorem applyFinally_archive (fs : Fs) :
    (applyFinally fs).archiveExists = fs.archiveExists := by
  unfold applyFinally
  split <;> rfl

theorem finalizeRun_ok (fs : Fs) (h : (finalizeRun fs).1 = .ok ()) :
    (finalizeRun fs).2.archiveExists = true ∧ (finalizeRun fs).2.dirExists = false := by
  unfold finalizeRun at h ⊢
  split at h
  · next hz =>
    rw [if_pos hz]
    exact ⟨rfl, rfl⟩
  · next hz => exact absurd h (by simp)

theorem finalizeRun_error (fs : Fs) (e : ExitErr) (h : (finalizeRun fs).1 = .error e) :
    (finalizeRun fs).2 = fs := by
  unfold finalizeRun at h ⊢
  split at h
  · next hz => exact absurd h (by simp)
  · next hz => rw [if_neg hz]

theorem driveChunks_classify (env : Env) (aid bs be : Nat) (fs : Fs)
    (hfa : fs.archiveExists = false) :
    ((driveChunks env aid bs be fs).1 = .ok () →
      (driveChunks env aid bs be fs).2.1.archiveExists = true ∧
      (driveChunks env aid bs be fs).2.1.dirExists = false) ∧
    (∀ e, (driveChunks env aid bs be fs).1 = .error e →
      (driveChunks env aid bs be fs).2.1.archiveExists = false) := by
  unfold driveChunks
  rcases hpc : processChunks env aid 0 (chunkList bs be) fs with ⟨r, fs1, n⟩
  have hpres := processChunks_dir_archive env aid (chunkList bs be) 0 fs
  rw [hpc] at hpres
  cases r with
  | error e =>
    simp only [hpc]
    constructor
    · intro h
      exact Except.noConfusion h
    · intro e' _
      rw [hpres.2]
      exact hfa
  | ok u =>
    simp only [hpc]
    rcases hf : finalizeRun fs1 with ⟨r2, fs2⟩
    cases r2 with
    | ok u2 =>
      have := finalizeRun_ok fs1 (by rw [hf])
      rw [hf] at this
      constructor
      · intro _
        exact this
      · intro e' h
        exact Except.noConfusion h
    | error e2 =>
      have := finalizeRun_error fs1 e2 (by rw [hf])
      rw [hf] at this
      constructor
      · intro h
        exact Except.noConfusion h
      · intro e' _
        rw [this, hpres.2]
        exact hfa

theorem runMain_classify (env : Env) (args : Args) (fs₀ : Fs)
    (hfa : fs₀.archiveExists = false) :
    ((runMain env args fs₀).1 = .ok () →
      (runMain env args fs₀).2.1.archiveExists = true ∧
      (runMain env args fs₀).2.1.dirExists = false) ∧
    (∀ e, (runMain env args fs₀).1 = .error e →
      (runMain env args fs₀).2.1.archiveExists = false) := by
  cases hl : env.listingResp with
  | error e =>
    simp only [runMain, hl]
    exact ⟨fun h => Except.noConfusion h, fun e' _ => hfa⟩
  | ok listing =>
    cases hal : findAlbumLink args.album listing with
    | none =>
      simp only [runMain, hl, hal]
      exact ⟨fun h => Except.noConfusion h, fun e' _ => hfa⟩
    | some path =>
      cases hid : parseAlbumId path with
      | none =>
        simp only [runMain, hl, hal, hid]
        exact ⟨fun h => Except.noConfusion h, fun e' _ => hfa⟩
      | some aid =>
        cases ha : env.albumResp with
        | error e =>
          simp only [runMain, hl, hal, hid, ha]
          exact ⟨fun h => Except.noConfusion h, fun e' _ => hfa⟩
        | ok detail =>
          cases hh : findHighestFileNumber detail with
          | none =>
            simp only [runMain, hl, hal, hid, ha, hh]
            exact ⟨fun h => Except.noConfusion h, fun e' _ => hfa⟩
          | some highest =>
            cases hrp : rangePlanner args.start args.end? highest with
            | error e =>
              simp only [runMain, hl, hal, hid, ha, hh, hrp]
              exact ⟨fun h => Except.noConfusion h, fun e' _ => hfa⟩
            | ok pr =>
              obtain ⟨s, e⟩ := pr
              by_cases hd : fs₀.dirExists = true
              · simp only [runMain, hl, hal, hid, ha, hh, hrp, if_pos hd]
                exact ⟨fun h => Except.noConfusion h, fun e' _ => hfa⟩
              · simp only [runMain, hl, hal, hid, ha, hh, hrp, if_neg hd]
                exact driveChunks_classify env aid (s - 1) e
                  { fs₀ with dirExists := true } hfa

/-- C1: the workspace lifecycle is all-or-nothing.  Every run either succeeds
or fails (exhaustive), the workspace directory never survives a run, a
successful run leaves the final archive, and a failed run — a failure
signalled anywhere, before or during chunk processing — leaves no archive at
all, however much partial data had accumulated. -/
theorem workspace_lifecycle_all_or_nothing (env : Env) (args : Args) (fs₀ : Fs)
    (hfa : fs₀.archiveExists = false) :
    ((moduleRun env args fs₀).1 = .ok () ∨
      ∃ e, (moduleRun env args fs₀).1 = .error e) ∧
    (moduleRun env args fs₀).2.1.dirExists = false ∧
    ((moduleRun env args fs₀).1 = .ok () →
      (moduleRun env args fs₀).2.1.archiveExists = true) ∧
    (∀ e, (moduleRun env args fs₀).1 = .error e →
      (moduleRun env args fs₀).2.1.archiveExists = false) := by
  have hc := runMain_classify env args fs₀ hfa
  rcases hrm : runMain env args fs₀ with ⟨r, fs1, n⟩
  rw [hrm] at hc
  unfold moduleRun
  rw [hrm]
  refine ⟨?_, applyFinally_dir fs1, ?_, ?_⟩
  · cases r with
    | ok u => exact Or.inl rfl
    | error e => exact Or.inr ⟨e, rfl⟩
  · intro h
    rw [applyFinally_archive]
    exact (hc.1 h).1
  · intro e h
    rw [applyFinally_archive]
    exact hc.2 e h

/-- Command-line inputs of a typical run. -/
def cArgs : Args := { album := "Recents", start := 1, end? := none }

/-- Initial filesystem: no workspace directory, no archive. -/
def fsInit : Fs :=
  { dirExists := false, zipExists := false, archiveExists := false, extracted := [] }

/-- Witness for `workspace_lifecycle_all_or_nothing` on a concrete run. -/
theorem workspace_lifecycle_all_or_nothing_witness :
    ((moduleRun cEnvTrue cArgs fsInit).1 = .ok () ∨
      ∃ e, (moduleRun cEnvTrue cArgs fsInit).1 = .error e) ∧
    (moduleRun cEnvTrue cArgs fsInit).2.1.dirExists = false ∧
    ((moduleRun cEnvTrue cArgs fsInit).1 = .ok () →
      (moduleRun cEnvTrue cArgs fsInit).2.1.archiveExists = true) ∧
    (∀ e, (moduleRun cEnvTrue cArgs fsInit).1 = .error e →
      (moduleRun cEnvTrue cArgs fsInit).2.1.archiveExists = false) :=
  workspace_lifecycle_all_or_nothing cEnvTrue cArgs fsInit rfl

theorem pollAux_all_false (resp : Nat → Except HErr Bool) (fuel a : Nat)
    (h : ∀ j, j < fuel → resp (a + j) = .ok false) :
    (pollAux resp a fuel).1 = .error .compressionTimeout := by
  induction fuel generalizing a with
  | zero => rfl
  | succ n ih =>
    have h0 : resp a = .ok false := by simpa using h 0 (by omega)
    rcases hrec : pollAux resp (a + 1) n with ⟨r, tr⟩
    have hnext : (pollAux resp (a + 1) n).1 = .error .compressionTimeout := by
      apply ih
      intro j hj
      have := h (j + 1) (by omega)
      rwa [show a + (j + 1) = a + 1 + j by omega] at this
    rw [hrec] at hnext
    simp only [pollAux, h0, hrec]
    exact hnext

theorem pollLoop_all_false (resp : Nat → Except HErr Bool)
    (h : ∀ j, j < 5 → resp j = .ok false) :
    (pollLoop resp).1 = .error .compressionTimeout :=
  pollAux_all_false resp 5 0 (fun j hj => by simpa using h j hj)

theorem processOneChunk_timeout (env : Env) (aid i : Nat) (c : Nat × Nat) (fs : Fs)
    (code : Nat)
    (hsc : env.startComp i (postData aid c.1 c.2) = .ok (code, false))
    (hpr : ∀ j, j < 5 → env.progress i j = .ok false) :
    (processOneChunk env aid i c fs).1 = .error .compressionTimeout := by
  have hpl := pollLoop_all_false (env.progress i) hpr
  rcases hp : pollLoop (env.progress i) with ⟨r, tr⟩
  rw [hp] at hpl
  cases r with
  | ok u => exact absurd hpl (by simp)
  | error e =>
    have he : e = .compressionTimeout := by simpa using hpl
    subst he
    simp [processOneChunk, hsc, pollPhase, hp]

theorem processChunks_timeout (env : Env) (aid : Nat) (chunks : List (Nat × Nat)) :
    ∀ (i k : Nat) (fs : Fs) (ck : Nat × Nat) (code : Nat),
    chunks[k]? = some ck →
    (∀ m cm, m < k → chunks[m]? = some cm →
      ∀ fsx, (processOneChunk env aid (i + m) cm fsx).1 = .ok ()) →
    env.startComp (i + k) (postData aid ck.1 ck.2) = .ok (code, false) →
    (∀ j, j < 5 → env.progress (i + k) j = .ok false) →
    (processChunks env aid i chunks fs).1 = .error .compressionTimeout := by
  induction chunks with
  | nil =>
    intro i k fs ck code hk
    simp at hk
  | cons c rest ih =>
    intro i k fs ck code hk hpre hsc hpr
    cases k with
    | zero =>
      have hck : c = ck := by simpa using hk
      subst hck
      rcases hpc : processOneChunk env aid i c fs with ⟨r, fs1, tr⟩
      have hout := processOneChunk_timeout env aid i c fs code
        (by simpa using hsc) (by simpa using hpr)
      rw [hpc] at hout
      cases r with
      | ok u => exact absurd hout (by simp)
      | error e =>
        have he : e = .compressionTimeout := by simpa using hout
        subst he
        simp only [processChunks, hpc]
    | succ k' =>
      have h0 : (processOneChunk env aid (i + 0) c fs).1 = .ok () :=
        hpre 0 c (by omega) (by simp) fs
      rw [show i + 0 = i from rfl] at h0
      rcases hpc : processOneChunk env aid i c fs with ⟨r, fs1, tr⟩
      rw [hpc] at h0
      cases r with
      | error e => exact absurd h0 (by simp)
      | ok u =>
        rcases hrec : processChunks env aid (i + 1) rest fs1 with ⟨r2, fs2, n⟩
        have hnext : (processChunks env aid (i + 1) rest fs1).1 =
            .error .compressionTimeout := by
          apply ih (i + 1) k' fs1 ck code (by simpa using hk) ?_ ?_ ?_
          · intro m cm hm hcm fsx
            have := hpre (m + 1) cm (by omega) (by simpa using hcm) fsx
            rwa [show i + (m + 1) = i + 1 + m by omega] at this
          · rwa [show i + 1 + k' = i + (k' + 1) by omega]
          · intro j hj
            have := hpr j hj
            rwa [show i + (k' + 1) = i + 1 + k' by omega] at this
        rw [hrec] at hnext
        simp only [processChunks, hpc, hrec]
        exact hnext

/-- C3: for every run that reaches chunk processing, whose first k chunk
cycles succeed, and whose chunk k enters polling (compression response not
ready) with all 5 poll attempts reporting `readyForDownload: false`, the run
terminates with the `CompressionTimeout` error, and after the finalizer the
workspace directory no longer exists. -/
theorem compression_timeout_terminates (env : Env) (args : Args) (fs₀ : Fs)
    (L D : List Event) (p : String) (aid hi s be k : Nat) (ck : Nat × Nat) (code : Nat)
    (hfd : fs₀.dirExists = false)
    (hl : env.listingResp = .ok L)
    (hal : findAlbumLink args.album L = some p)
    (hid : parseAlbumId p = some aid)
    (ha : env.albumResp = .ok D)
    (hh : findHighestFileNumber D = some hi)
    (hrp : rangePlanner args.start args.end? hi = .ok (s, be))
    (hk : (chunkList (s - 1) be)[k]? = some ck)
    (hpre : ∀ m cm, m < k → (chunkList (s - 1) be)[m]? = some cm →
      (processOneChunk env aid m cm fs₀).1 = .ok ())
    (hsc : env.startComp k (postData aid ck.1 ck.2) = .ok (code, false))
    (hpr : ∀ j, j < 5 → env.progress k j = .ok false) :
    (moduleRun env args fs₀).1 = .error .compressionTimeout ∧
    (moduleRun env args fs₀).2.1.dirExists = false := by
  have hrun : runMain env args fs₀ =
      driveChunks env aid (s - 1) be { fs₀ with dirExists := true } := by
    simp only [runMain, hl, hal, hid, ha, hh, hrp, hfd]
    rw [if_neg (by simp [hfd])]
  have hchunks : (processChunks env aid 0 (chunkList (s - 1) be)
      { fs₀ with dirExists := true }).1 = .error .compressionTimeout := by
    apply processChunks_timeout env aid (chunkList (s - 1) be) 0 k _ ck code hk
      ?_ (by simpa using hsc) (by simpa using hpr)
    intro m cm hm hcm fsx
    have h1 := hpre m cm hm hcm
    have h2 := processOneChunk_outcome_indep env aid m cm fsx fs₀
    rw [show (0 : Nat) + m = m from Nat.zero_add m]
    exact h2.trans h1
  rcases hpc : processChunks env aid 0 (chunkList (s - 1) be)
      { fs₀ with dirExists := true } with ⟨r, fs1, n⟩
  rw [hpc] at hchunks
  cases r with
  | ok u => exact absurd hchunks (by simp)
  | error e =>
    have he : e = .compressionTimeout := by simpa using hchunks
    subst he
    have hdrive : driveChunks env aid (s - 1) be { fs₀ with dirExists := true } =
        (.error .compressionTimeout, fs1, n) := by
      simp only [driveChunks, hpc]
    constructor
    · simp only [moduleRun, hrun, hdrive]
    · simp only [moduleRun, hrun, hdrive]
      exact applyFinally_dir fs1

/-- Server oracle whose compression responses are never ready and whose
progress checks always report not ready. -/
def cEnvTO : Env :=
  { listingResp := .ok [.startTag "a" [("href", some "/7/index")],
      .data "Recents", .endTag "a"]
    albumResp := .ok [.data "# 3"]
    startComp := fun _ _ => .ok (5, false)
    progress := fun _ _ => .ok false
    zipDownload := fun _ _ => .ok 0
    unpackOk := fun _ _ => true }

/-- Witness for `compression_timeout_terminates` on a concrete run whose
first chunk's 5 poll attempts all report not ready. -/
theorem compression_timeout_terminates_witness :
    (moduleRun cEnvTO cArgs fsInit).1 = .error .compressionTimeout ∧
    (moduleRun cEnvTO cArgs fsInit).2.1.dirExists = false :=
  compression_timeout_terminates cEnvTO cArgs fsInit
    [.startTag "a" [("href", some "/7/index")], .data "Recents", .endTag "a"]
    [.data "# 3"] "/7/index" 7 3 1 3 0 (0, 3) 5
    rfl rfl rfl rfl rfl rfl rfl
    (by simp [chunkList])
    (by intro m cm hm hcm; exact absurd hm (Nat.not_lt_zero m))
    rfl
    (fun j hj => rfl)

/-- C8 counterexample: on the degenerate effective range (start − 1 == end,
here the zero-based block range `[0, 0)`), the driver performs zero chunk
cycles, but the run is *not* a no-op success and produces *no* archive: the
epilogue's `os.remove` of the never-written rolling zip fails
(`FileNotFoundError`, modelled as `zipMissing`). -/
theorem degenerate_range_counterexample :
    (driveChunks cEnvTrue 7 0 0 fs0).1 = .error .zipMissing ∧
    (driveChunks cEnvTrue 7 0 0 fs0).2.2 = 0 ∧
    (driveChunks cEnvTrue 7 0 0 fs0).2.1.archiveExists = false := by
  have hcl : chunkList 0 0 = [] := chunkList_empty
  refine ⟨?_, ?_, ?_⟩ <;>
    simp [driveChunks, hcl, processChunks, finalizeRun, fs0]

/-- C8 amended: a degenerate effective range (start − 1 == end) yields an
empty chunk sequence and the driver performs zero chunk cycles, but the run
is then a *failure*, not a no-op success: with no chunk ever writing the
rolling zip, removing it fails, no archive is produced, the filesystem is
left as it was, and the finalizer deletes the workspace directory. -/
theorem degenerate_range_amended (env : Env) (aid bs : Nat) (fs : Fs)
    (hz : fs.zipExists = false) :
    (driveChunks env aid bs bs fs).1 = .error .zipMissing ∧
    (driveChunks env aid bs bs fs).2.2 = 0 ∧
    (driveChunks env aid bs bs fs).2.1 = fs ∧
    (applyFinally (driveChunks env aid bs bs fs).2.1).dirExists = false ∧
    (applyFinally (driveChunks env aid bs bs fs).2.1).archiveExists =
      fs.archiveExists := by
  have hcl : chunkList bs bs = [] := by
    rw [chunkList]
    simp
  have hfin : finalizeRun fs = (.error .zipMissing, fs) := by
    unfold finalizeRun
    rw [if_neg (by simp [hz])]
  have hdc : driveChunks env aid bs bs fs = (.error .zipMissing, fs, 0) := by
    simp only [driveChunks, hcl, processChunks, hfin]
  rw [hdc]
  exact ⟨rfl, rfl, rfl, applyFinally_dir fs, applyFinally_archive fs⟩

/-- Witness for `degenerate_range_amended` on the degenerate range `[0, 0)`. -/
theorem degenerate_range_amended_witness :
    (driveChunks cEnvTrue 7 0 0 fs0).1 = .error .zipMissing ∧
    (driveChunks cEnvTrue 7 0 0 fs0).2.2 = 0 ∧
    (driveChunks cEnvTrue 7 0 0 fs0).2.1 = fs0 ∧
    (applyFinally (driveChunks cEnvTrue 7 0 0 fs0).2.1).dirExists = false ∧
    (applyFinally (driveChunks cEnvTrue 7 0 0 fs0).2.1).archiveExists =
      fs0.archiveExists :=
  degenerate_range_amended cEnvTrue 7 0 fs0 rfl

theorem runMain_preexisting (env : Env) (args : Args) (fs₀ : Fs)
    (hd : fs₀.dirExists = true) :
    ∃ e, runMain env args fs₀ = (.error e, fs₀, 0) := by
  cases hl : env.listingResp with
  | error e => exact ⟨.http e, by simp only [runMain, hl]⟩
  | ok listing =>
    cases hal : findAlbumLink args.album listing with
    | none => exact ⟨.albumNotFound, by simp only [runMain, hl, hal]⟩
    | some path =>
      cases hid : parseAlbumId path with
      | none => exact ⟨.badAlbumPath, by simp only [runMain, hl, hal, hid]⟩
      | some aid =>
        cases ha : env.albumResp with
        | error e => exact ⟨.http e, by simp only [runMain, hl, hal, hid, ha]⟩
        | ok detail =>
          cases hh : findHighestFileNumber detail with
          | none => exact ⟨.noFilesInAlbum, by simp only [runMain, hl, hal, hid, ha, hh]⟩
          | some highest =>
            cases hrp : rangePlanner args.start args.end? highest with
            | error e =>
              exact ⟨e, by simp only [runMain, hl, hal, hid, ha, hh, hrp]⟩
            | ok pr =>
              obtain ⟨s, e⟩ := pr
              exact ⟨.workspaceCollision,
                by simp only [runMain, hl, hal, hid, ha, hh, hrp, if_pos hd]⟩

/-- C9: when the workspace directory name already exists at run start, every
run fails with some error before any chunk-loop iteration runs, and the
cleanup finalizer then deletes the pre-existing directory together with all
of its prior contents — the failure does not leave the old directory
intact. -/
theorem workspace_collision_behavior (env : Env) (args : Args) (fs₀ : Fs)
    (hd : fs₀.dirExists = true) :
    (∃ e, (moduleRun env args fs₀).1 = .error e) ∧
    (moduleRun env args fs₀).2.2 = 0 ∧
    (moduleRun env args fs₀).2.1.dirExists = false ∧
    (moduleRun env args fs₀).2.1.extracted = [] := by
  obtain ⟨e, hrm⟩ := runMain_preexisting env args fs₀ hd
  have hmod : moduleRun env args fs₀ = (.error e, applyFinally fs₀, 0) := by
    simp only [moduleRun, hrm]
  rw [hmod]
  exact ⟨⟨e, rfl⟩, rfl, applyFinally_dir fs₀,
    by simp [applyFinally, hd, rmtreeFs]⟩

/-- A stale workspace directory with leftovers from an interrupted run. -/
def fsPre : Fs :=
  { dirExists := true, zipExists := false, archiveExists := false, extracted := [3] }

/-- Witness for `workspace_collision_behavior` with a stale non-empty
workspace directory. -/
theorem workspace_collision_behavior_witness :
    (∃ e, (moduleRun cEnvTrue cArgs fsPre).1 = .error e) ∧
    (moduleRun cEnvTrue cArgs fsPre).2.2 = 0 ∧
    (moduleRun cEnvTrue cArgs fsPre).2.1.dirExists = false ∧
    (moduleRun cEnvTrue cArgs fsPre).2.1.extracted = [] :=
  workspace_collision_behavior cEnvTrue cArgs fsPre rfl
